import Mathlib

/-!
Verification development for the biscuit-forge authorization engine.

The Go repository resolves an authorization request in two layers:

* `dblogic` fetches, under one transaction, the requesting user, the
  transitive closure of the user's group memberships (a recursive SQL
  query with `UNION` set semantics), the target repo, its repogroup
  memberships, and the four kinds of role-assignment rows, decoding the
  stored role labels into an enum (`GatherRequestDetails`).
* `authz.CheckAuthz` turns the gathered data into a Datalog fact set and
  rule set for the biscuit policy evaluator and converts the evaluator's
  answer into a `(bool, error)` pair.

This file embeds both layers shallowly.  Database queries are modelled as
pure functions over an explicit `Store` of table rows; the recursive CTE
is modelled as the least-fixpoint iteration its `UNION` semantics denotes;
`log.Fatalf` calls are modelled as a `BuildOutcome.fatal` result distinct
from an error value returned to the caller; the external Datalog
evaluator is modelled by evaluating, over the generated fact set, exactly
the rules the source template ships (including the fact that the
`allow` rule's `role($userOrGroup, $repoOrGroup, $role)` body atom uses
variables that differ, by capitalisation, from the `$userOrgroup` and
`$repoOrgroup` bound by the `user_authority` and `repo_authority` atoms).
-/

deriving instance DecidableEq for Except

namespace BiscuitForge

/-! ## Generic list-set helpers

The Go code builds de-duplicated sets with `map[int]bool` keys and the SQL
layer relies on `UNION` set semantics.  Both are modelled by inserting
into a list only when the element is absent, which keeps the embedding
executable and the results `Nodup`.
-/

def insertIfAbsent {α : Type} [DecidableEq α] (l : List α) (x : α) : List α :=
  if x ∈ l then l else l ++ [x]

def insertAllAbsent {α : Type} [DecidableEq α] (l : List α) (xs : List α) : List α :=
  xs.foldl insertIfAbsent l

theorem subset_insertIfAbsent {α : Type} [DecidableEq α] (l : List α) (x : α) :
    l ⊆ insertIfAbsent l x := by
  unfold insertIfAbsent
  split
  · exact fun a ha => ha
  · exact fun a ha => List.mem_append_left _ ha

theorem mem_insertIfAbsent_iff {α : Type} [DecidableEq α] (l : List α) (x y : α) :
    y ∈ insertIfAbsent l x ↔ y ∈ l ∨ y = x := by
  unfold insertIfAbsent
  split
  · rename_i hx
    constructor
    · exact fun h => Or.inl h
    · rintro (h | rfl)
      · exact h
      · exact hx
  · simp [List.mem_append]

theorem nodup_insertIfAbsent {α : Type} [DecidableEq α] {l : List α} (x : α)
    (h : l.Nodup) : (insertIfAbsent l x).Nodup := by
  unfold insertIfAbsent
  split
  · exact h
  · rename_i hx
    simpa [List.nodup_append, h] using hx

theorem length_insertIfAbsent {α : Type} [DecidableEq α] (l : List α) (x : α) :
    insertIfAbsent l x = l ∨ (insertIfAbsent l x).length = l.length + 1 := by
  unfold insertIfAbsent
  split
  · exact Or.inl rfl
  · right
    simp

theorem subset_insertAllAbsent {α : Type} [DecidableEq α] (xs : List α) :
    ∀ l : List α, l ⊆ insertAllAbsent l xs := by
  induction xs with
  | nil => exact fun l => List.Subset.refl l
  | cons x xs ih =>
    intro l
    exact (subset_insertIfAbsent l x).trans (ih (insertIfAbsent l x))

theorem mem_insertAllAbsent_iff {α : Type} [DecidableEq α] (xs : List α) :
    ∀ (l : List α) (y : α), y ∈ insertAllAbsent l xs ↔ y ∈ l ∨ y ∈ xs := by
  induction xs with
  | nil => simp [insertAllAbsent]
  | cons x xs ih =>
    intro l y
    have h := ih (insertIfAbsent l x) y
    simp only [insertAllAbsent, List.foldl_cons] at h ⊢
    rw [h, mem_insertIfAbsent_iff]
    simp [List.mem_cons]
    tauto

theorem nodup_insertAllAbsent {α : Type} [DecidableEq α] (xs : List α) :
    ∀ l : List α, l.Nodup → (insertAllAbsent l xs).Nodup := by
  induction xs with
  | nil => exact fun l h => h
  | cons x xs ih =>
    intro l h
    exact ih (insertIfAbsent l x) (nodup_insertIfAbsent x h)

theorem length_le_insertAllAbsent {α : Type} [DecidableEq α] (xs : List α) :
    ∀ l : List α, l.length ≤ (insertAllAbsent l xs).length := by
  induction xs with
  | nil => exact fun l => Nat.le_refl _
  | cons x xs ih =>
    intro l
    refine Nat.le_trans ?_ (ih (insertIfAbsent l x))
    rcases length_insertIfAbsent l x with h | h
    · rw [h]
    · omega

theorem insertAllAbsent_eq_or_lt {α : Type} [DecidableEq α] (xs : List α) :
    ∀ l : List α, insertAllAbsent l xs = l ∨
      l.length < (insertAllAbsent l xs).length := by
  induction xs with
  | nil => exact fun l => Or.inl rfl
  | cons x xs ih =>
    intro l
    rcases length_insertIfAbsent l x with h | h
    · simpa [insertAllAbsent, h] using ih l
    · right
      have h2 := length_le_insertAllAbsent xs (insertIfAbsent l x)
      simp only [insertAllAbsent] at h2 ⊢
      simp only [List.foldl_cons]
      omega

/-! ## dblogic: data model (src/unnamed/part_000)

The Go types carry their source names and field names.  Database ids are
Go `int`s, modelled as `Int`.
-/

/-- `RepoRoleType` is a possible repo role (Go `iota` enum, `UnknownRole`
representing the error case). -/
inductive RepoRoleType where
  | UnknownRole
  | OwnerRole
  | ReaderRole
  | WriterRole
deriving DecidableEq, Repr

/-- `UserInGroup` represents a user being a member of a usergroup. -/
structure UserInGroup where
  UserId : Int
  UsergroupId : Int
deriving DecidableEq, Repr

/-- `UserGroupInGroup` represents a nested usergroup. -/
structure UserGroupInGroup where
  ParentUsergroupId : Int
  ChildUsergroupId : Int
deriving DecidableEq, Repr

/-- `UsergroupRelationships` is the partitioned output of the recursive
usergroup query: direct memberships and nesting edges. -/
structure UsergroupRelationships where
  UserInGroups : List UserInGroup
  UserGroupInGroups : List UserGroupInGroup
deriving DecidableEq, Repr

/-- `RepogroupRel` relates a repogroup and a repo. -/
structure RepogroupRel where
  RepogroupId : Int
  RepoId : Int
deriving DecidableEq, Repr

/-- `UserOrGroupRel` tags whether a role assignment's principal is a user
or a usergroup (`UndefUGR` is the zero value). -/
inductive UserOrGroupRel where
  | UndefUGR
  | UserUGR
  | UsergroupUGR
deriving DecidableEq, Repr

/-- `RepoOrGroupRel` tags whether a role assignment's resource is a repo
or a repogroup (`UndefRGR` is the zero value). -/
inductive RepoOrGroupRel where
  | UndefRGR
  | RepoUGR
  | RepogroupUGR
deriving DecidableEq, Repr

/-- `AssignedRole` covers a relationship between a role, a user or
usergroup, and a repo or repogroup. -/
structure AssignedRole where
  UserOrGroup : UserOrGroupRel
  UserOrGroupID : Int
  RepoOrGroup : RepoOrGroupRel
  RepoOrGroupID : Int
  RepoRole : RepoRoleType
deriving DecidableEq, Repr

/-- `RequestDetails` bundles everything `GatherRequestDetails` resolves
for one decision request. -/
structure RequestDetails where
  UserId : Int
  Username : String
  UsergroupRelationships : UsergroupRelationships
  RepoId : Int
  RepoName : String
  RepogroupRels : List RepogroupRel
  AssignedRoles : List AssignedRole
deriving DecidableEq, Repr

/-- The two distinct error values `repoRoleStrToEnum` produces.  The Go
function returns `fmt.Errorf` values; the spec's error taxonomy names the
owner-on-repogroup one (message "repogroups cannot have owner roles")
`InvalidRoleForResourceType`, and the fallthrough one (message
"unable to convert %s") is an unknown-label error. -/
inductive RoleDecodeError where
  | invalidRoleForResourceType
  | unknownRoleLabel (label : String)
deriving DecidableEq, Repr

/-- `repoRoleStrToEnum` converts a stored role label to the enum; the Go
switch on `repoRoleStr` with the `isRepogroup` guard on the `"owner"`
case. -/
def repoRoleStrToEnum (repoRoleStr : String) (isRepogroup : Bool) :
    Except RoleDecodeError RepoRoleType :=
  if repoRoleStr = "owner" then
    if isRepogroup then Except.error RoleDecodeError.invalidRoleForResourceType
    else Except.ok RepoRoleType.OwnerRole
  else if repoRoleStr = "reader" then Except.ok RepoRoleType.ReaderRole
  else if repoRoleStr = "writer" then Except.ok RepoRoleType.WriterRole
  else Except.error (RoleDecodeError.unknownRoleLabel repoRoleStr)

/-! ## dblogic: the recursive usergroup closure (`getUsergroupsRecursive`)

The Go function runs one `WITH RECURSIVE ugs(usergroup_id,
child_usergroup_id)` query:

* the seed arm selects `(usergroup_id, NULL)` from
  `UserGroup_membership_users` where `user_id = $userid`;
* the recursive arm selects every `UserGroup_membership_usergroups` row
  whose `usergroup_id` equals the `usergroup_id` or the
  `child_usergroup_id` of a row already in `ugs`;
* the arms are combined by `UNION`, so the result is the least fixpoint
  of the step under set semantics (a row already present is never added
  again, which is what makes the query terminate on cyclic edge sets).

The iteration below runs the monotone step `cteStep` for
`seeds.length + edges.length + 1` rounds; every row ever produced is a
seed row or the image of an edge, so (proved later) that many rounds
provably reach the fixpoint.
-/

/-- One row of the recursive CTE: `child_usergroup_id` is `NULL` exactly
on rows of the seed arm. -/
structure UgsRow where
  usergroup_id : Int
  child_usergroup_id : Option Int
deriving DecidableEq, Repr

/-- The recursive arm turns an edge table row `(usergroup_id,
child_usergroup_id)` into a result row. -/
def ugsRowOfEdge (e : Int × Int) : UgsRow :=
  { usergroup_id := e.1, child_usergroup_id := some e.2 }

/-- The join condition of the recursive arm: the edge's `usergroup_id`
equals the `usergroup_id` or the (non-NULL) `child_usergroup_id` of some
row already produced. -/
def edgeJoins (cur : List UgsRow) (e : Int × Int) : Bool :=
  cur.any fun r =>
    r.usergroup_id == e.1 || r.child_usergroup_id == some e.1

/-- One round of the recursive arm under `UNION` set semantics. -/
def cteStep (edges : List (Int × Int)) (cur : List UgsRow) : List UgsRow :=
  insertAllAbsent cur ((edges.filter (edgeJoins cur)).map ugsRowOfEdge)

def cteIter (edges : List (Int × Int)) : Nat → List UgsRow → List UgsRow
  | 0, cur => cur
  | Nat.succ n, cur => cteIter edges n (cteStep edges cur)

/-- The seed arm: `(usergroup_id, NULL)` rows for the user's direct
memberships, de-duplicated by `UNION`.  `memberRows` are
`UserGroup_membership_users` rows `(usergroup_id, user_id)`. -/
def seedRowsOf (userId : Int) (memberRows : List (Int × Int)) : List UgsRow :=
  insertAllAbsent []
    ((memberRows.filter (fun m => m.2 == userId)).map
      (fun m => { usergroup_id := m.1, child_usergroup_id := none }))

/-- The full row set the recursive query returns.  `edges` are
`UserGroup_membership_usergroups` rows `(usergroup_id,
child_usergroup_id)`. -/
def getUsergroupsRecursiveRows (userId : Int) (memberRows edges : List (Int × Int)) :
    List UgsRow :=
  cteIter edges ((seedRowsOf userId memberRows).length + edges.length + 1)
    (seedRowsOf userId memberRows)

/-- The group ids a row set mentions (the values the join condition and
the downstream id sets can see: the `usergroup_id` of every row and the
`child_usergroup_id` of every nested row). -/
def ugsIds : List UgsRow → List Int
  | [] => []
  | r :: rest =>
    r.usergroup_id ::
      (match r.child_usergroup_id with
       | some c => c :: ugsIds rest
       | none => ugsIds rest)

/-- The user's directly assigned group ids (the seed arm's ids). -/
def directGroupIds (userId : Int) (memberRows : List (Int × Int)) : List Int :=
  (memberRows.filter (fun m => m.2 == userId)).map (·.1)

/-- Specification-side reachability: a group is in the closure when the
user is a direct member, or when a nesting edge links it to a group
already in the closure. -/
inductive ReachableGroup (seeds : List Int) (edges : List (Int × Int)) : Int → Prop where
  | direct {g : Int} : g ∈ seeds → ReachableGroup seeds edges g
  | nested {p c : Int} : (p, c) ∈ edges → ReachableGroup seeds edges p →
      ReachableGroup seeds edges c

/-- `getUsergroupsRecursive`'s row-scanning loop: a row with a non-NULL
`child_usergroup_id` becomes a `UserGroupInGroup`, any other row becomes
a `UserInGroup` carrying the queried user's id. -/
def partitionUsergroupRows (userId : Int) : List UgsRow → UsergroupRelationships
  | [] => { UserInGroups := [], UserGroupInGroups := [] }
  | r :: rest =>
    let p := partitionUsergroupRows userId rest
    match r.child_usergroup_id with
    | some c =>
      { UserInGroups := p.UserInGroups
        UserGroupInGroups :=
          { ParentUsergroupId := r.usergroup_id, ChildUsergroupId := c } ::
            p.UserGroupInGroups }
    | none =>
      { UserInGroups :=
          { UserId := userId, UsergroupId := r.usergroup_id } :: p.UserInGroups
        UserGroupInGroups := p.UserGroupInGroups }

/-! ## dblogic: role-assignment aggregation (`getAssignedRoles`)

`getAssignedRoles` runs four queries.  The usergroup and repogroup id
sets for the `IN (...)` lists are built as Go `map[int]bool` keys — a
set.  Go map iteration order is unspecified; the model fixes insertion
order, which the claims (about membership and duplicate-freedom) do not
depend on.
-/

/-- The usergroup id set of interest: the groups the user is directly in
plus the child group of every nesting edge (the Go `usergroupIds` map). -/
def usergroupIdsOf (usergroupRels : UsergroupRelationships) : List Int :=
  insertAllAbsent
    (insertAllAbsent [] (usergroupRels.UserInGroups.map (·.UsergroupId)))
    (usergroupRels.UserGroupInGroups.map (·.ChildUsergroupId))

/-- The repogroup id set of interest (the Go `repogroupIds` map). -/
def repogroupIdsOf (repogroupRels : List RepogroupRel) : List Int :=
  insertAllAbsent [] (repogroupRels.map (·.RepogroupId))

/-- The user→repo loop: each row is a `rolename` string; decoding an
unconvertible label aborts the whole aggregation with the decode error
(the Go loop returns `nil, err`). -/
def decodeUserRepoRows (userId repoId : Int) :
    List String → Except RoleDecodeError (List AssignedRole)
  | [] => Except.ok []
  | s :: rest =>
    match repoRoleStrToEnum s false with
    | Except.error e => Except.error e
    | Except.ok role =>
      match decodeUserRepoRows userId repoId rest with
      | Except.error e => Except.error e
      | Except.ok l =>
        Except.ok
          ({ UserOrGroup := UserOrGroupRel.UserUGR
             UserOrGroupID := userId
             RepoOrGroup := RepoOrGroupRel.RepoUGR
             RepoOrGroupID := repoId
             RepoRole := role } :: l)

/-- The usergroup→repo loop: rows are `(usergroup_id, rolename)`. -/
def decodeUsergroupRepoRows (repoId : Int) :
    List (Int × String) → Except RoleDecodeError (List AssignedRole)
  | [] => Except.ok []
  | (ugId, s) :: rest =>
    match repoRoleStrToEnum s false with
    | Except.error e => Except.error e
    | Except.ok role =>
      match decodeUsergroupRepoRows repoId rest with
      | Except.error e => Except.error e
      | Except.ok l =>
        Except.ok
          ({ UserOrGroup := UserOrGroupRel.UsergroupUGR
             UserOrGroupID := ugId
             RepoOrGroup := RepoOrGroupRel.RepoUGR
             RepoOrGroupID := repoId
             RepoRole := role } :: l)

/-- The user→repogroup loop: rows are `(repogroup_id, rolename)`,
decoded with `isRepogroup = true`. -/
def decodeUserRepogroupRows (userId : Int) :
    List (Int × String) → Except RoleDecodeError (List AssignedRole)
  | [] => Except.ok []
  | (rgId, s) :: rest =>
    match repoRoleStrToEnum s true with
    | Except.error e => Except.error e
    | Except.ok role =>
      match decodeUserRepogroupRows userId rest with
      | Except.error e => Except.error e
      | Except.ok l =>
        Except.ok
          ({ UserOrGroup := UserOrGroupRel.UserUGR
             UserOrGroupID := userId
             RepoOrGroup := RepoOrGroupRel.RepogroupUGR
             RepoOrGroupID := rgId
             RepoRole := role } :: l)

/-- The usergroup→repogroup loop: rows are
`(repogroup_id, usergroup_id, rolename)`, decoded with
`isRepogroup = true`. -/
def decodeUsergroupRepogroupRows :
    List (Int × Int × String) → Except RoleDecodeError (List AssignedRole)
  | [] => Except.ok []
  | (rgId, ugId, s) :: rest =>
    match repoRoleStrToEnum s true with
    | Except.error e => Except.error e
    | Except.ok role =>
      match decodeUsergroupRepogroupRows rest with
      | Except.error e => Except.error e
      | Except.ok l =>
        Except.ok
          ({ UserOrGroup := UserOrGroupRel.UsergroupUGR
             UserOrGroupID := ugId
             RepoOrGroup := RepoOrGroupRel.RepogroupUGR
             RepoOrGroupID := rgId
             RepoRole := role } :: l)

/-! ## dblogic: the relationship store and `GatherRequestDetails`

The SQLite database is modelled as explicit table-row lists.  The three
role tables store, in place of the `repo_role`/`repogroup_role` foreign
key into the `*_roles_enum` tables, the `rolename` string that the
queries' `INNER JOIN` resolves the key to — the queries only ever select
the joined `rolename`.
-/

structure Store where
  /-- `Users` rows `(id, username)`. -/
  Users : List (Int × String)
  /-- `Repos` rows `(id, reponame)`. -/
  Repos : List (Int × String)
  /-- `UserGroup_membership_users` rows `(usergroup_id, user_id)`. -/
  UserGroupMembershipUsers : List (Int × Int)
  /-- `UserGroup_membership_usergroups` rows
  `(usergroup_id, child_usergroup_id)`. -/
  UserGroupMembershipUsergroups : List (Int × Int)
  /-- `RepoGroup_membership` rows `(repogroup_id, repo_id)`. -/
  RepoGroupMembership : List (Int × Int)
  /-- `Repo_Roles_membership_Users` rows `(repo_id, user_id, rolename)`. -/
  RepoRolesUsers : List (Int × Int × String)
  /-- `Repo_Roles_membership_UserGroups` rows
  `(repo_id, usergroup_id, rolename)`. -/
  RepoRolesUsergroups : List (Int × Int × String)
  /-- `RepoGroup_Roles_membership_Users` rows
  `(repogroup_id, user_id, rolename)`. -/
  RepogroupRolesUsers : List (Int × Int × String)
  /-- `RepoGroup_Roles_membership_Usergroup` rows
  `(repogroup_id, usergroup_id, rolename)`. -/
  RepogroupRolesUsergroups : List (Int × Int × String)
deriving DecidableEq, Repr

/-- `checkUserInDb`: the username when the user id has a row, otherwise
the query's no-rows error (surfaced by the caller as not-found). -/
def checkUserInDb (userId : Int) (store : Store) : Option String :=
  (store.Users.find? (fun u => u.1 == userId)).map (·.2)

/-- `checkRepoInDb`: the repo id when the repo name has a row. -/
def checkRepoInDb (reponame : String) (store : Store) : Option Int :=
  (store.Repos.find? (fun r => r.2 == reponame)).map (·.1)

/-- `getRepogroupRels`: the repogroups the repo belongs to. -/
def getRepogroupRels (repoId : Int) (store : Store) : List RepogroupRel :=
  (store.RepoGroupMembership.filter (fun r => r.2 == repoId)).map
    (fun r => { RepogroupId := r.1, RepoId := repoId })

/-- `getUsergroupsRecursive` over the store: the recursive query followed
by the row-partitioning scan. -/
def getUsergroupsRecursive (userId : Int) (store : Store) : UsergroupRelationships :=
  partitionUsergroupRows userId
    (getUsergroupsRecursiveRows userId store.UserGroupMembershipUsers
      store.UserGroupMembershipUsergroups)

/-- Rows of the user→repo role query (`WHERE repo_id = $repoid AND
user_id = $userid`). -/
def userRepoRoleRowsOf (userId repoId : Int) (store : Store) : List String :=
  (store.RepoRolesUsers.filter (fun r => r.1 == repoId && r.2.1 == userId)).map
    (fun r => r.2.2)

/-- Rows of the usergroup→repo role query (`WHERE repo_id = $repoid AND
usergroup_id IN (...)`). -/
def usergroupRepoRoleRowsOf (repoId : Int) (usergroupIds : List Int)
    (store : Store) : List (Int × String) :=
  (store.RepoRolesUsergroups.filter
      (fun r => r.1 == repoId && usergroupIds.contains r.2.1)).map
    (fun r => (r.2.1, r.2.2))

/-- Rows of the user→repogroup role query (`WHERE user_id = $userid AND
repogroup_id IN (...)`). -/
def userRepogroupRoleRowsOf (userId : Int) (repogroupIds : List Int)
    (store : Store) : List (Int × String) :=
  (store.RepogroupRolesUsers.filter
      (fun r => r.2.1 == userId && repogroupIds.contains r.1)).map
    (fun r => (r.1, r.2.2))

/-- Rows of the usergroup→repogroup role query (`WHERE usergroup_id IN
(...) AND repogroup_id IN (...)`). -/
def usergroupRepogroupRoleRowsOf (usergroupIds repogroupIds : List Int)
    (store : Store) : List (Int × Int × String) :=
  (store.RepogroupRolesUsergroups.filter
      (fun r => usergroupIds.contains r.2.1 && repogroupIds.contains r.1)).map
    (fun r => (r.1, r.2.1, r.2.2))

/-- `getAssignedRoles`: the four queries in source order, each decoded by
its loop, concatenated; the first decode error aborts the whole
aggregation. -/
def getAssignedRoles (userId repoId : Int)
    (usergroupRels : UsergroupRelationships) (repogroupRels : List RepogroupRel)
    (store : Store) : Except RoleDecodeError (List AssignedRole) :=
  match decodeUserRepoRows userId repoId (userRepoRoleRowsOf userId repoId store) with
  | Except.error e => Except.error e
  | Except.ok l1 =>
    match decodeUsergroupRepoRows repoId
        (usergroupRepoRoleRowsOf repoId (usergroupIdsOf usergroupRels) store) with
    | Except.error e => Except.error e
    | Except.ok l2 =>
      match decodeUserRepogroupRows userId
          (userRepogroupRoleRowsOf userId (repogroupIdsOf repogroupRels) store) with
      | Except.error e => Except.error e
      | Except.ok l3 =>
        match decodeUsergroupRepogroupRows
            (usergroupRepogroupRoleRowsOf (usergroupIdsOf usergroupRels)
              (repogroupIdsOf repogroupRels) store) with
        | Except.error e => Except.error e
        | Except.ok l4 => Except.ok (l1 ++ l2 ++ l3 ++ l4)

/-- Which lookup a `GatherRequestDetails` run has issued, in order. -/
inductive GatherStep where
  | userLookup
  | usergroupsLookup
  | repoLookup
  | repogroupLookup
  | rolesLookup
deriving DecidableEq, Repr

inductive GatherError where
  | userNotFound
  | repoNotFound
  | roleDecode (e : RoleDecodeError)
deriving DecidableEq, Repr

/-- `GatherRequestDetails`: the lookups in source order — user identity,
then the recursive usergroup closure, then the repo identity, then the
repo's repogroups, then the role assignments.  A failing lookup rolls
back and returns its error; the second component records which lookups
were issued before the run ended. -/
def GatherRequestDetails (userId : Int) (reponame : String) (store : Store) :
    Except GatherError RequestDetails × List GatherStep :=
  match checkUserInDb userId store with
  | none => (Except.error GatherError.userNotFound, [GatherStep.userLookup])
  | some username =>
    let usergroupRels := getUsergroupsRecursive userId store
    match checkRepoInDb reponame store with
    | none =>
      (Except.error GatherError.repoNotFound,
        [GatherStep.userLookup, GatherStep.usergroupsLookup, GatherStep.repoLookup])
    | some repoId =>
      let repogroupRels := getRepogroupRels repoId store
      match getAssignedRoles userId repoId usergroupRels repogroupRels store with
      | Except.error e =>
        (Except.error (GatherError.roleDecode e),
          [GatherStep.userLookup, GatherStep.usergroupsLookup, GatherStep.repoLookup,
            GatherStep.repogroupLookup, GatherStep.rolesLookup])
      | Except.ok assignedRoles =>
        (Except.ok
          { UserId := userId
            Username := username
            UsergroupRelationships := usergroupRels
            RepoId := repoId
            RepoName := reponame
            RepogroupRels := repogroupRels
            AssignedRoles := assignedRoles },
          [GatherStep.userLookup, GatherStep.usergroupsLookup, GatherStep.repoLookup,
            GatherStep.repogroupLookup, GatherStep.rolesLookup])

/-! ## authz: constants and namespacing (src/authz/biscuitLogic.go)

`Action` is a Go `int` with three declared constants; `CheckAuthz` is
only ever called with one of them (its `switch` would `log.Fatalf` on any
other value), so the model is the three-constructor enum.
-/

inductive Action where
  | Membership
  | Read
  | Write
deriving DecidableEq, Repr

def membershipStr : String := "membership"
def writeStr : String := "write"
def readStr : String := "read"
def ownerRoleStr : String := "owner"
def writerRoleStr : String := "writer"
def readerRoleStr : String := "reader"

def roleNS : String := "role"
def actionNS : String := "action"
def userNS : String := "userid"
def usergroupNS : String := "usergroupid"
def repoNS : String := "repo"
def repogroupNS : String := "repogroupid"

/-- `namespaceAuthz` adds a namespace to a datalog symbol
(`fmt.Sprintf("%s:%s", namespace, symbol)`). -/
def namespaceAuthz (symbol ns : String) : String :=
  ns ++ ":" ++ symbol

def namespaceRole (symbol : String) : String := namespaceAuthz symbol roleNS

def namespaceUser (symbol : Int) : String := namespaceAuthz (toString symbol) userNS

def namespaceRepo (symbol : Int) : String := namespaceAuthz (toString symbol) repoNS

def namespaceAction (symbol : String) : String := namespaceAuthz symbol actionNS

def namespaceUG (symbol : Int) : String := namespaceAuthz (toString symbol) usergroupNS

def namespaceRG (symbol : Int) : String := namespaceAuthz (toString symbol) repogroupNS

/-- The `switch operation` in `CheckAuthz` that sets `ActionStr`. -/
def actionToStr : Action → String
  | Action.Membership => membershipStr
  | Action.Read => readStr
  | Action.Write => writeStr

/-- One entry of the static role→actions table (the local
`repoRoleActions` struct of `CheckAuthz`). -/
structure RepoRoleActions where
  RoleName : String
  RoleAllowedActions : List String
deriving DecidableEq, Repr

/-- The static role→action table built into `authzDetailsInst` — a
code-level constant, not read from the database. -/
def repoRoleActionsConfig : List RepoRoleActions :=
  [ { RoleName := ownerRoleStr
      RoleAllowedActions := [membershipStr, writeStr, readStr] },
    { RoleName := writerRoleStr
      RoleAllowedActions := [writeStr, readStr] },
    { RoleName := readerRoleStr
      RoleAllowedActions := [readStr] } ]

/-! ## authz: building the role facts

`CheckAuthz` converts every gathered `AssignedRole` into a
`role(user, repo, role)` fact through three `switch` statements whose
`default` branches call `log.Fatalf` — terminating the process.
`BuildOutcome.fatal` models that exit; it is not an error value the
caller receives. -/

inductive BuildOutcome (α : Type) where
  | ok (val : α)
  | fatal (msg : String)
deriving DecidableEq, Repr

/-- The local `assignedRole` template struct: a namespaced role name,
principal and resource. -/
structure RoleFact where
  Role : String
  UserNamespaced : String
  RepoNamespaced : String
deriving DecidableEq, Repr

/-- The `switch dbAssignRole.UserOrGroup` of `CheckAuthz`. -/
def roleFactUserPart (a : AssignedRole) : BuildOutcome String :=
  match a.UserOrGroup with
  | UserOrGroupRel.UserUGR => BuildOutcome.ok (namespaceUser a.UserOrGroupID)
  | UserOrGroupRel.UsergroupUGR => BuildOutcome.ok (namespaceUG a.UserOrGroupID)
  | UserOrGroupRel.UndefUGR =>
    BuildOutcome.fatal "Failed to match UserOrGroup in role assignment: 0"

/-- The `switch dbAssignRole.RepoOrGroup` of `CheckAuthz`. -/
def roleFactRepoPart (a : AssignedRole) : BuildOutcome String :=
  match a.RepoOrGroup with
  | RepoOrGroupRel.RepoUGR => BuildOutcome.ok (namespaceRepo a.RepoOrGroupID)
  | RepoOrGroupRel.RepogroupUGR => BuildOutcome.ok (namespaceRG a.RepoOrGroupID)
  | RepoOrGroupRel.UndefRGR =>
    BuildOutcome.fatal "Failed to match RepoOrGroup in role assignment: 0"

/-- The `switch dbAssignRole.RepoRole` of `CheckAuthz`. -/
def roleFactRolePart (a : AssignedRole) : BuildOutcome String :=
  match a.RepoRole with
  | RepoRoleType.OwnerRole => BuildOutcome.ok (namespaceRole ownerRoleStr)
  | RepoRoleType.ReaderRole => BuildOutcome.ok (namespaceRole readerRoleStr)
  | RepoRoleType.WriterRole => BuildOutcome.ok (namespaceRole writerRoleStr)
  | RepoRoleType.UnknownRole =>
    BuildOutcome.fatal "Failed to match RepoRole in role assignment: 0"

/-- One `role(...)` fact from one gathered assignment: the three switches
in source order, the first `log.Fatalf` ending the process. -/
def buildRoleFact (a : AssignedRole) : BuildOutcome RoleFact :=
  match roleFactUserPart a with
  | BuildOutcome.fatal m => BuildOutcome.fatal m
  | BuildOutcome.ok userOrGroup =>
    match roleFactRepoPart a with
    | BuildOutcome.fatal m => BuildOutcome.fatal m
    | BuildOutcome.ok repoOrGroup =>
      match roleFactRolePart a with
      | BuildOutcome.fatal m => BuildOutcome.fatal m
      | BuildOutcome.ok roleName =>
        BuildOutcome.ok
          { Role := roleName
            UserNamespaced := userOrGroup
            RepoNamespaced := repoOrGroup }

/-- The `for _, dbAssignRole := range reqDetails.AssignedRoles` loop. -/
def buildRoleFacts : List AssignedRole → BuildOutcome (List RoleFact)
  | [] => BuildOutcome.ok []
  | a :: rest =>
    match buildRoleFact a with
    | BuildOutcome.fatal m => BuildOutcome.fatal m
    | BuildOutcome.ok rf =>
      match buildRoleFacts rest with
      | BuildOutcome.fatal m => BuildOutcome.fatal m
      | BuildOutcome.ok rfs => BuildOutcome.ok (rf :: rfs)

/-! ## authz: the generated authorizer and its Datalog semantics

`CheckAuthz` renders one authorizer text from `authzDetailsInst`.  Its
facts and rules, modelled structurally below, are:

    repo_role_actions("role:R", ["action:A", ...]);   -- one per table row
    operation("action:OP", "repo:ID");
    time(NOW);
    repo($repoid) <- operation($action, $repoid);
    usergroup("usergroupid:G", "userid:U");           -- direct memberships
    usergroup("usergroupid:P", "usergroupid:C");      -- nesting edges
    repogroup("repogroupid:G", "repo:R");
    role(USER, REPO, ROLE);                           -- one per assignment
    user_authority($member, $member) <- user($member);
    user_authority($member, $group) <-
      usergroup($group, $member), $member.starts_with("userid:");
    user_authority($member, $subgroup) <-
      usergroup($group, $subgroup),
      $subgroup.starts_with("usergroupid:"),
      user_authority($member, $group);
    repo_authority($member, $member) <- repo($member);
    repo_authority($member, $group) <- repogroup($group, $member);
    req_role($role, $action) <-
      operation($action, $repo),
      repo_role_actions($role, $permissions), $permissions.contains($action);
    allow if
      user($user), operation($action, $repo), req_role($role, $action),
      user_authority($user, $userOrgroup),
      repo_authority($repo, $repoOrgroup),
      role($userOrGroup, $repoOrGroup, $role);

The token's authority block (from `IssueToken`) contributes the single
fact `user("userid:N")`.  The `time(...)` fact is consumed by no rule of
the authorizer itself (only token attenuations can check it) and is
omitted.  Note the `allow` rule: `$userOrGroup` and `$repoOrGroup` in the
`role(...)` atom are, by Datalog variable naming, DIFFERENT variables
from the `$userOrgroup`/`$repoOrgroup` bound by the authority atoms, so
the atom only requires SOME `role` fact carrying a qualifying role.
-/

structure AuthzWorld where
  /-- `user(...)` facts contributed by the verified token's blocks. -/
  userFacts : List String
  /-- `repo_role_actions(role, [actions])` facts. -/
  repoRoleActionFacts : List (String × List String)
  /-- `operation(action, repo)` facts. -/
  operations : List (String × String)
  /-- `usergroup(group, member)` facts. -/
  usergroupFacts : List (String × String)
  /-- `repogroup(group, repo)` facts. -/
  repogroupFacts : List (String × String)
  /-- `role(user, repo, role)` facts. -/
  roleFacts : List RoleFact
deriving DecidableEq, Repr

/-- Datalog's `starts_with` builtin: string prefix test. -/
def strStartsWith (s pre : String) : Bool :=
  pre.toList.isPrefixOf s.toList

/-- `repo($repoid) <- operation($action, $repoid)`. -/
def repoDerived (w : AuthzWorld) : List String :=
  w.operations.map (·.2)

/-- The non-recursive `user_authority` rules: the reflexive pairs from
`user` facts and the `usergroup($group, $member)` pairs whose member is a
user symbol. -/
def uaSeedPairs (w : AuthzWorld) : List (String × String) :=
  w.userFacts.map (fun u => (u, u)) ++
    (w.usergroupFacts.filterMap fun gm =>
      if strStartsWith gm.2 userNS then some (gm.2, gm.1) else none)

/-- Pairs derivable by one application of the recursive `user_authority`
rule from the pairs in `cur`. -/
def uaDerived (w : AuthzWorld) (cur : List (String × String)) :
    List (String × String) :=
  cur.foldl
    (fun acc mg =>
      acc ++
        ((w.usergroupFacts.filter
            (fun g => strStartsWith g.2 usergroupNS && g.1 == mg.2)).map
          (fun g => (mg.1, g.2))))
    []

def uaStep (w : AuthzWorld) (cur : List (String × String)) :
    List (String × String) :=
  insertAllAbsent cur (uaDerived w cur)

def uaIter (w : AuthzWorld) : Nat → List (String × String) → List (String × String)
  | 0, cur => cur
  | Nat.succ n, cur => uaIter w n (uaStep w cur)

/-- Rounds sufficient to saturate `user_authority`: every derivable pair
has a first component that is a first component of a seed pair and a
second component that is a seed second component or a `usergroup` fact's
member, so the number of distinct pairs is at most
`seeds * (seeds + facts)`; each round either adds a pair or is already
the fixpoint. -/
def uaFuel (w : AuthzWorld) : Nat :=
  (w.userFacts.length + w.usergroupFacts.length + 1) *
    (w.userFacts.length + 2 * w.usergroupFacts.length + 1) + 1

/-- The saturated `user_authority` relation of the generated program. -/
def uaFacts (w : AuthzWorld) : List (String × String) :=
  uaIter w (uaFuel w) (uaSeedPairs w)

/-- The `repo_authority` relation (non-recursive): reflexive pairs from
derived `repo` facts plus `repogroup($group, $member)` pairs flipped. -/
def raPairs (w : AuthzWorld) : List (String × String) :=
  (repoDerived w).map (fun m => (m, m)) ++
    w.repogroupFacts.map (fun gm => (gm.2, gm.1))

/-- `req_role($role, $action)`: some operation requests `$action` and
some `repo_role_actions` fact for `$role` contains it. -/
def reqRoleHolds (w : AuthzWorld) (role act : String) : Bool :=
  w.operations.any (fun o => o.1 == act) &&
    w.repoRoleActionFacts.any (fun rp => rp.1 == role && rp.2.contains act)

/-- The `allow if` policy over the generated world.  `$role` values that
can satisfy `req_role` are exactly first components of
`repo_role_actions` facts, so the existential over `$role` is evaluated
by ranging over those facts.  Per the rule as written, the `role(...)`
atom's principal and resource variables are fresh, so only the fact's
role column is constrained. -/
def allowDecision (w : AuthzWorld) : Bool :=
  w.userFacts.any fun u =>
    w.operations.any fun o =>
      w.repoRoleActionFacts.any fun rp =>
        reqRoleHolds w rp.1 o.1 &&
          (uaFacts w).any (fun mg => mg.1 == u) &&
          (raPairs w).any (fun mg => mg.1 == o.2) &&
          w.roleFacts.any (fun rf => rf.Role == rp.1)

/-- The world `CheckAuthz` hands the biscuit authorizer: the token's user
fact (`IssueToken` writes `user("userid:N")` as the authority block) plus
the facts rendered from `authzDetailsInst`. -/
def CheckAuthzWorld (tokenUserId : Int) (reqDetails : RequestDetails)
    (operation : Action) (rfs : List RoleFact) : AuthzWorld :=
  { userFacts := [namespaceUser tokenUserId]
    repoRoleActionFacts :=
      repoRoleActionsConfig.map fun r =>
        (namespaceRole r.RoleName, r.RoleAllowedActions.map namespaceAction)
    operations :=
      [(namespaceAction (actionToStr operation), namespaceRepo reqDetails.RepoId)]
    usergroupFacts :=
      reqDetails.UsergroupRelationships.UserInGroups.map
          (fun m => (namespaceUG m.UsergroupId, namespaceUser m.UserId)) ++
        reqDetails.UsergroupRelationships.UserGroupInGroups.map
          (fun e => (namespaceUG e.ParentUsergroupId, namespaceUG e.ChildUsergroupId))
    repogroupFacts :=
      reqDetails.RepogroupRels.map
        (fun r => (namespaceRG r.RepogroupId, namespaceRepo r.RepoId))
    roleFacts := rfs }

/-- The biscuit `Authorizer.Authorize()` call: its API returns only an
`error`, which is `nil` exactly when an `allow` policy matched; a denied
request surfaces as a non-nil "authorization failed" error. -/
def authorizeResultOf (w : AuthzWorld) : Option String :=
  if allowDecision w then none else some "authorization failed"

/-- `CheckAuthz`: build the role facts (a `log.Fatalf` on a malformed
assignment ends the process), evaluate the authorizer, and convert:
`Authorize()` returning nil yields `(true, nil)`; a non-nil result is
wrapped and returned as `(false, err)`.  No return path yields
`(false, nil)`. -/
def CheckAuthz (tokenUserId : Int) (reqDetails : RequestDetails)
    (operation : Action) : BuildOutcome (Bool × Option String) :=
  match buildRoleFacts reqDetails.AssignedRoles with
  | BuildOutcome.fatal m => BuildOutcome.fatal m
  | BuildOutcome.ok rfs =>
    match authorizeResultOf (CheckAuthzWorld tokenUserId reqDetails operation rfs) with
    | none => BuildOutcome.ok (true, none)
    | some m => BuildOutcome.ok (false, some ("error in Authorize: " ++ m))

/-- The claim-side reading of `RoleActionMap[role]`: the enum's role
label looked up in the static table. -/
def roleTypeLabel : RepoRoleType → Option String
  | RepoRoleType.UnknownRole => none
  | RepoRoleType.OwnerRole => some ownerRoleStr
  | RepoRoleType.ReaderRole => some readerRoleStr
  | RepoRoleType.WriterRole => some writerRoleStr

def roleActionsForType (rt : RepoRoleType) : List String :=
  match roleTypeLabel rt with
  | none => []
  | some label =>
    (((repoRoleActionsConfig.find? (fun r => r.RoleName == label)).map
        (·.RoleAllowedActions)).getD [])

/-! ## Claims about the static permission table and the row partition -/

/-- Claim C9: the static role→action table used by the decision engine
maps exactly Owner to {membership, write, read}, Writer to
{write, read}, and Reader to {read}. -/
theorem roleActionTable_exact :
    (∀ r ∈ repoRoleActionsConfig,
        (r.RoleName = "owner" ∧
            r.RoleAllowedActions = ["membership", "write", "read"]) ∨
          (r.RoleName = "writer" ∧ r.RoleAllowedActions = ["write", "read"]) ∨
          (r.RoleName = "reader" ∧ r.RoleAllowedActions = ["read"])) ∧
    RepoRoleActions.mk "owner" ["membership", "write", "read"] ∈ repoRoleActionsConfig ∧
    RepoRoleActions.mk "writer" ["write", "read"] ∈ repoRoleActionsConfig ∧
    RepoRoleActions.mk "reader" ["read"] ∈ repoRoleActionsConfig := by
  decide

/-- Claim C10: the closure query's output is partitioned exactly by the
NULL-ness of the child column — every direct-membership record carries
the queried user's id, every nesting-edge record pairs a parent id with a
non-null child id, and the two partitions exhaust the rows with none
placed in both. -/
theorem partitionUsergroupRows_partitions (userId : Int) (rows : List UgsRow) :
    (partitionUsergroupRows userId rows).UserInGroups =
        rows.filterMap (fun r =>
          match r.child_usergroup_id with
          | none => some { UserId := userId, UsergroupId := r.usergroup_id }
          | some _ => none) ∧
    (partitionUsergroupRows userId rows).UserGroupInGroups =
        rows.filterMap (fun r =>
          match r.child_usergroup_id with
          | some c => some { ParentUsergroupId := r.usergroup_id, ChildUsergroupId := c }
          | none => none) ∧
    (∀ u ∈ (partitionUsergroupRows userId rows).UserInGroups, u.UserId = userId) ∧
    (partitionUsergroupRows userId rows).UserInGroups.length +
        (partitionUsergroupRows userId rows).UserGroupInGroups.length = rows.length := by
  have h12 : ∀ rs : List UgsRow,
      (partitionUsergroupRows userId rs).UserInGroups =
          rs.filterMap (fun r =>
            match r.child_usergroup_id with
            | none => some { UserId := userId, UsergroupId := r.usergroup_id }
            | some _ => none) ∧
        (partitionUsergroupRows userId rs).UserGroupInGroups =
          rs.filterMap (fun r =>
            match r.child_usergroup_id with
            | some c => some { ParentUsergroupId := r.usergroup_id, ChildUsergroupId := c }
            | none => none) := by
    intro rs
    induction rs with
    | nil => simp [partitionUsergroupRows]
    | cons r rest ih =>
      cases hc : r.child_usergroup_id with
      | none =>
        exact ⟨by simp [partitionUsergroupRows, hc, ih.1],
          by simp [partitionUsergroupRows, hc, ih.2]⟩
      | some c =>
        exact ⟨by simp [partitionUsergroupRows, hc, ih.1],
          by simp [partitionUsergroupRows, hc, ih.2]⟩
  have hlen : ∀ rs : List UgsRow,
      (partitionUsergroupRows userId rs).UserInGroups.length +
        (partitionUsergroupRows userId rs).UserGroupInGroups.length = rs.length := by
    intro rs
    induction rs with
    | nil => simp [partitionUsergroupRows]
    | cons r rest ih =>
      cases hc : r.child_usergroup_id with
      | none =>
        simp only [partitionUsergroupRows, hc, List.length_cons]
        omega
      | some c =>
        simp only [partitionUsergroupRows, hc, List.length_cons]
        omega
  refine ⟨(h12 rows).1, (h12 rows).2, ?_, hlen rows⟩
  rw [(h12 rows).1]
  intro u hu
  obtain ⟨r, hr, heq⟩ := List.mem_filterMap.mp hu
  cases hc : r.child_usergroup_id with
  | none =>
    rw [hc] at heq
    simp only [Option.some.injEq] at heq
    rw [← heq]
  | some c =>
    rw [hc] at heq
    simp at heq

/-- Claim C8: the usergroup and repogroup id sets used to build the
`IN (...)` lists contain no duplicates, and contain exactly the direct
groups, the nesting-edge children and the repo's repogroups. -/
theorem inListIdSets_deduplicated (usergroupRels : UsergroupRelationships)
    (repogroupRels : List RepogroupRel) :
    (usergroupIdsOf usergroupRels).Nodup ∧
    (repogroupIdsOf repogroupRels).Nodup ∧
    (∀ i : Int, i ∈ usergroupIdsOf usergroupRels ↔
      (∃ m ∈ usergroupRels.UserInGroups, m.UsergroupId = i) ∨
        ∃ e ∈ usergroupRels.UserGroupInGroups, e.ChildUsergroupId = i) ∧
    (∀ i : Int, i ∈ repogroupIdsOf repogroupRels ↔
      ∃ r ∈ repogroupRels, r.RepogroupId = i) := by
  refine ⟨?_, ?_, ?_, ?_⟩
  · exact nodup_insertAllAbsent _ _
      (nodup_insertAllAbsent _ _ List.nodup_nil)
  · exact nodup_insertAllAbsent _ _ List.nodup_nil
  · intro i
    unfold usergroupIdsOf
    rw [mem_insertAllAbsent_iff, mem_insertAllAbsent_iff]
    simp [List.mem_map, eq_comm]
  · intro i
    unfold repogroupIdsOf
    rw [mem_insertAllAbsent_iff]
    simp [List.mem_map, eq_comm]

/-! ## Claim C2: Owner on a repogroup surfaces as an error, never a
dropped row -/

theorem decodeUserRepogroupRows_error_of_owner (userId : Int) :
    ∀ (rows : List (Int × String)) (rgId : Int), (rgId, "owner") ∈ rows →
      ∃ e, decodeUserRepogroupRows userId rows = Except.error e := by
  intro rows
  induction rows with
  | nil => simp
  | cons hd tl ih =>
    intro rgId hmem
    obtain ⟨i, s⟩ := hd
    rcases List.mem_cons.mp hmem with heq | htl
    · injection heq with h1 h2
      subst h2
      exact ⟨RoleDecodeError.invalidRoleForResourceType,
        by simp [decodeUserRepogroupRows, repoRoleStrToEnum]⟩
    · obtain ⟨e, he⟩ := ih rgId htl
      cases hdec : repoRoleStrToEnum s true with
      | error e2 => exact ⟨e2, by simp [decodeUserRepogroupRows, hdec]⟩
      | ok role => exact ⟨e, by simp [decodeUserRepogroupRows, hdec, he]⟩

/-- Claim C2: decoding a stored `owner` label against a repogroup-typed
resource is the `InvalidRoleForResourceType` error, never `OwnerRole` and
never a dropped row; the user→repogroup decode loop and the whole
`getAssignedRoles` aggregation propagate the error instead of skipping
the row. -/
theorem owner_on_repogroup_surfaces (userId : Int) (rows : List (Int × String))
    (rgId : Int) (hmem : (rgId, "owner") ∈ rows) :
    repoRoleStrToEnum "owner" true =
        Except.error RoleDecodeError.invalidRoleForResourceType ∧
    (∃ e, decodeUserRepogroupRows userId rows = Except.error e) ∧
    ∀ (repoId : Int) (ugRels : UsergroupRelationships)
        (rgRels : List RepogroupRel) (store : Store),
      (rgId, "owner") ∈ userRepogroupRoleRowsOf userId (repogroupIdsOf rgRels) store →
      ∃ e, getAssignedRoles userId repoId ugRels rgRels store = Except.error e := by
  refine ⟨by simp [repoRoleStrToEnum], decodeUserRepogroupRows_error_of_owner userId rows rgId hmem, ?_⟩
  intro repoId ugRels rgRels store hrow
  unfold getAssignedRoles
  cases h1 : decodeUserRepoRows userId repoId (userRepoRoleRowsOf userId repoId store) with
  | error e => exact ⟨e, rfl⟩
  | ok l1 =>
    cases h2 : decodeUsergroupRepoRows repoId
        (usergroupRepoRoleRowsOf repoId (usergroupIdsOf ugRels) store) with
    | error e => exact ⟨e, rfl⟩
    | ok l2 =>
      obtain ⟨e, he⟩ := decodeUserRepogroupRows_error_of_owner userId
        (userRepogroupRoleRowsOf userId (repogroupIdsOf rgRels) store) rgId hrow
      exact ⟨e, by rw [he]⟩

/-- Witness for C2 at a concrete row list. -/
theorem owner_on_repogroup_surfaces_witness :
    ((7 : Int), "owner") ∈ [((7 : Int), "owner")] ∧
    (repoRoleStrToEnum "owner" true =
        Except.error RoleDecodeError.invalidRoleForResourceType ∧
      (∃ e, decodeUserRepogroupRows 1 [((7 : Int), "owner")] = Except.error e) ∧
      ∀ (repoId : Int) (ugRels : UsergroupRelationships)
          (rgRels : List RepogroupRel) (store : Store),
        (7, "owner") ∈ userRepogroupRoleRowsOf 1 (repogroupIdsOf rgRels) store →
        ∃ e, getAssignedRoles 1 repoId ugRels rgRels store = Except.error e) :=
  ⟨by decide, owner_on_repogroup_surfaces 1 [((7 : Int), "owner")] 7 (by decide)⟩

/-! ## Claim C7: unrecognized tags while building the decision -/

/-- Counterexample to C7 as stated: an assignment whose principal tag is
the zero value `UndefUGR` does not produce a typed error result returned
to the caller — `CheckAuthz`'s switch hits `log.Fatalf`, modelled as the
process-terminating `BuildOutcome.fatal`. -/
theorem unrecognizedTag_terminates_process :
    buildRoleFact
        { UserOrGroup := UserOrGroupRel.UndefUGR
          UserOrGroupID := 5
          RepoOrGroup := RepoOrGroupRel.RepoUGR
          RepoOrGroupID := 3
          RepoRole := RepoRoleType.OwnerRole } =
      BuildOutcome.fatal "Failed to match UserOrGroup in role assignment: 0" := by
  decide

/-- Claim C7 amended: an unrecognized role label decoded from storage
does produce a typed error returned to the caller
(`repoRoleStrToEnum`), but an unrecognized role or relation tag reached
while `CheckAuthz` builds the decision's `role(...)` facts terminates the
process via `log.Fatalf` instead of returning an error. -/
theorem unrecognizedTags_fatal_decode_errors (a : AssignedRole) (s : String)
    (b : Bool)
    (ha : a.UserOrGroup = UserOrGroupRel.UndefUGR ∨
      a.RepoOrGroup = RepoOrGroupRel.UndefRGR ∨
      a.RepoRole = RepoRoleType.UnknownRole)
    (hs1 : s ≠ "owner") (hs2 : s ≠ "reader") (hs3 : s ≠ "writer") :
    (∃ m, buildRoleFact a = BuildOutcome.fatal m) ∧
    repoRoleStrToEnum s b = Except.error (RoleDecodeError.unknownRoleLabel s) := by
  constructor
  · obtain ⟨uog, uid, rog, rid, rr⟩ := a
    cases uog <;> cases rog <;> cases rr <;>
      simp_all [buildRoleFact, roleFactUserPart, roleFactRepoPart, roleFactRolePart]
  · simp [repoRoleStrToEnum, hs1, hs2, hs3]

/-- Witness for C7's amended claim at a concrete assignment/label. -/
theorem unrecognizedTags_fatal_witness :
    (∃ m, buildRoleFact
        { UserOrGroup := UserOrGroupRel.UserUGR
          UserOrGroupID := 5
          RepoOrGroup := RepoOrGroupRel.RepoUGR
          RepoOrGroupID := 3
          RepoRole := RepoRoleType.UnknownRole } = BuildOutcome.fatal m) ∧
    repoRoleStrToEnum "admin" false =
      Except.error (RoleDecodeError.unknownRoleLabel "admin") :=
  unrecognizedTags_fatal_decode_errors
    { UserOrGroup := UserOrGroupRel.UserUGR
      UserOrGroupID := 5
      RepoOrGroup := RepoOrGroupRel.RepoUGR
      RepoOrGroupID := 3
      RepoRole := RepoRoleType.UnknownRole }
    "admin" false (by decide) (by decide) (by decide) (by decide)

/-! ## Claim C3: how `CheckAuthz` reports a deny

`CheckAuthz` returns `(true, nil)` when `Authorize()` reports success and
`(false, wrapped error)` otherwise; since the biscuit API reports a
failed authorization (including a plain deny) through its only channel,
a non-nil error, `CheckAuthz` has no return path producing a successful
`(false, nil)` verdict. -/

/-- Counterexample to C3 as stated: for a request with zero relevant
assignments (a pure default-deny), `CheckAuthz` returns the deny as
`(false, non-nil error)`, not as a successful false verdict. -/
theorem CheckAuthz_noAssignments_errors :
    CheckAuthz 1
        { UserId := 1
          Username := "Olivia"
          UsergroupRelationships := { UserInGroups := [], UserGroupInGroups := [] }
          RepoId := 1
          RepoName := "Alpha"
          RepogroupRels := []
          AssignedRoles := [] }
        Action.Read =
      BuildOutcome.ok (false, some ("error in Authorize: " ++ "authorization failed")) := by
  decide

/-- Claim C3 amended: `CheckAuthz`'s only successful outcome is
`(true, nil)`; every `false` verdict — a failed evaluation or a mere
absence of qualifying assignments alike — is accompanied by a non-nil
error, so a deny is never returned as a successful false verdict. -/
theorem CheckAuthz_false_carries_error (tokenUserId : Int)
    (reqDetails : RequestDetails) (operation : Action) (res : Bool × Option String)
    (hok : CheckAuthz tokenUserId reqDetails operation = BuildOutcome.ok res)
    (hfalse : res.1 = false) : res.2.isSome = true := by
  cases hbuild : buildRoleFacts reqDetails.AssignedRoles with
  | fatal m => simp [CheckAuthz, hbuild] at hok
  | ok rfs =>
    cases hauth : authorizeResultOf
        (CheckAuthzWorld tokenUserId reqDetails operation rfs) with
    | none =>
      simp only [CheckAuthz, hbuild, hauth] at hok
      injection hok with h
      rw [← h] at hfalse
      simp at hfalse
    | some m =>
      simp only [CheckAuthz, hbuild, hauth] at hok
      injection hok with h
      rw [← h]
      rfl

/-- Witness for C3's amended claim at the concrete default-deny request. -/
theorem CheckAuthz_false_carries_error_witness :
    CheckAuthz 1
        { UserId := 1
          Username := "Olivia"
          UsergroupRelationships := { UserInGroups := [], UserGroupInGroups := [] }
          RepoId := 1
          RepoName := "Alpha"
          RepogroupRels := []
          AssignedRoles := [] }
        Action.Read =
      BuildOutcome.ok
        (false, some ("error in Authorize: " ++ "authorization failed")) ∧
    (((false : Bool),
        some ("error in Authorize: " ++ "authorization failed")).2).isSome = true :=
  ⟨by decide,
    CheckAuthz_false_carries_error 1
      { UserId := 1
        Username := "Olivia"
        UsergroupRelationships := { UserInGroups := [], UserGroupInGroups := [] }
        RepoId := 1
        RepoName := "Alpha"
        RepogroupRels := []
        AssignedRoles := [] }
      Action.Read
      (false, some ("error in Authorize: " ++ "authorization failed"))
      (by decide) (by decide)⟩

/-! ## Claim C6: a missing repo name and the order of lookups -/

/-- Counterexample to C6 as stated: with the repo name absent from the
store, `GatherRequestDetails` does fail, but the usergroup-closure query
has already been issued by then — the repo-identity lookup does not
precede the closure computation. -/
theorem gather_missingRepo_closure_ran :
    GatherRequestDetails 1 "Ghost"
        { Users := [(1, "Olivia")]
          Repos := []
          UserGroupMembershipUsers := [(1, 1)]
          UserGroupMembershipUsergroups := []
          RepoGroupMembership := []
          RepoRolesUsers := []
          RepoRolesUsergroups := []
          RepogroupRolesUsers := []
          RepogroupRolesUsergroups := [] } =
      (Except.error GatherError.repoNotFound,
        [GatherStep.userLookup, GatherStep.usergroupsLookup, GatherStep.repoLookup]) ∧
    GatherStep.usergroupsLookup ∈
      (GatherRequestDetails 1 "Ghost"
        { Users := [(1, "Olivia")]
          Repos := []
          UserGroupMembershipUsers := [(1, 1)]
          UserGroupMembershipUsergroups := []
          RepoGroupMembership := []
          RepoRolesUsers := []
          RepoRolesUsergroups := []
          RepogroupRolesUsers := []
          RepogroupRolesUsergroups := [] }).2 := by
  constructor
  · decide
  · decide

/-- Claim C6 amended: when the user exists but the requested repo name
does not, `GatherRequestDetails` fails with the not-found error and stops
before the repogroup-membership and role-assignment lookups; the
group-closure computation, issued before the repo-identity lookup in
source order, has been performed. -/
theorem gather_missingRepo_notFound (userId : Int) (reponame : String)
    (store : Store) (username : String)
    (huser : checkUserInDb userId store = some username)
    (hrepo : checkRepoInDb reponame store = none) :
    GatherRequestDetails userId reponame store =
      (Except.error GatherError.repoNotFound,
        [GatherStep.userLookup, GatherStep.usergroupsLookup, GatherStep.repoLookup]) := by
  unfold GatherRequestDetails
  rw [huser, hrepo]

/-- Witness for C6's amended claim at a concrete store. -/
theorem gather_missingRepo_notFound_witness :
    checkUserInDb 1
        { Users := [(1, "Olivia")]
          Repos := [(2, "Bravo")]
          UserGroupMembershipUsers := [(1, 1)]
          UserGroupMembershipUsergroups := []
          RepoGroupMembership := []
          RepoRolesUsers := []
          RepoRolesUsergroups := []
          RepogroupRolesUsers := []
          RepogroupRolesUsergroups := [] } = some "Olivia" ∧
    GatherRequestDetails 1 "Ghost"
        { Users := [(1, "Olivia")]
          Repos := [(2, "Bravo")]
          UserGroupMembershipUsers := [(1, 1)]
          UserGroupMembershipUsergroups := []
          RepoGroupMembership := []
          RepoRolesUsers := []
          RepoRolesUsergroups := []
          RepogroupRolesUsers := []
          RepogroupRolesUsergroups := [] } =
      (Except.error GatherError.repoNotFound,
        [GatherStep.userLookup, GatherStep.usergroupsLookup, GatherStep.repoLookup]) :=
  ⟨by decide,
    gather_missingRepo_notFound 1 "Ghost"
      { Users := [(1, "Olivia")]
        Repos := [(2, "Bravo")]
        UserGroupMembershipUsers := [(1, 1)]
        UserGroupMembershipUsergroups := []
        RepoGroupMembership := []
        RepoRolesUsers := []
        RepoRolesUsergroups := []
        RepogroupRolesUsers := []
        RepogroupRolesUsergroups := [] }
      "Olivia" (by decide) (by decide)⟩

/-! ## Claims C4 and C5: the recursive closure terminates at a fixpoint
equal to the reachable set, and is monotone in the edge set -/

theorem mem_ugsIds_iff (rows : List UgsRow) (i : Int) :
    i ∈ ugsIds rows ↔
      ∃ r ∈ rows, r.usergroup_id = i ∨ r.child_usergroup_id = some i := by
  induction rows with
  | nil => simp [ugsIds]
  | cons r rest ih =>
    cases hc : r.child_usergroup_id with
    | none =>
      simp only [ugsIds, hc, List.mem_cons, ih]
      constructor
      · rintro (rfl | ⟨r', hr', hcase⟩)
        · exact ⟨r, Or.inl rfl, Or.inl rfl⟩
        · exact ⟨r', Or.inr hr', hcase⟩
      · rintro ⟨r', (rfl | hr'), hcase⟩
        · rcases hcase with h | h
          · exact Or.inl h.symm
          · rw [hc] at h; cases h
        · exact Or.inr ⟨r', hr', hcase⟩
    | some c =>
      simp only [ugsIds, hc, List.mem_cons, ih]
      constructor
      · rintro (rfl | rfl | ⟨r', hr', hcase⟩)
        · exact ⟨r, Or.inl rfl, Or.inl rfl⟩
        · exact ⟨r, Or.inl rfl, Or.inr (by rw [hc])⟩
        · exact ⟨r', Or.inr hr', hcase⟩
      · rintro ⟨r', (rfl | hr'), hcase⟩
        · rcases hcase with h | h
          · exact Or.inl h.symm
          · rw [hc] at h
            injection h with h'
            exact Or.inr (Or.inl h'.symm)
        · exact Or.inr (Or.inr ⟨r', hr', hcase⟩)

theorem edgeJoins_eq_true_iff (cur : List UgsRow) (e : Int × Int) :
    edgeJoins cur e = true ↔ e.1 ∈ ugsIds cur := by
  unfold edgeJoins
  rw [List.any_eq_true, mem_ugsIds_iff]
  constructor
  · rintro ⟨r, hr, hp⟩
    rcases Bool.or_eq_true _ _ |>.mp hp with h | h
    · exact ⟨r, hr, Or.inl (by exact_mod_cast (beq_iff_eq).mp h)⟩
    · exact ⟨r, hr, Or.inr ((beq_iff_eq).mp h)⟩
  · rintro ⟨r, hr, h | h⟩
    · exact ⟨r, hr, Bool.or_eq_true _ _ |>.mpr (Or.inl (beq_iff_eq.mpr h))⟩
    · exact ⟨r, hr, Bool.or_eq_true _ _ |>.mpr (Or.inr (beq_iff_eq.mpr h))⟩

theorem subset_cteStep (edges : List (Int × Int)) (cur : List UgsRow) :
    cur ⊆ cteStep edges cur :=
  subset_insertAllAbsent _ _

theorem mem_cteStep_iff (edges : List (Int × Int)) (cur : List UgsRow) (r : UgsRow) :
    r ∈ cteStep edges cur ↔
      r ∈ cur ∨ ∃ e ∈ edges, edgeJoins cur e = true ∧ ugsRowOfEdge e = r := by
  unfold cteStep
  rw [mem_insertAllAbsent_iff]
  simp only [List.mem_map, List.mem_filter]
  constructor
  · rintro (h | ⟨e, ⟨he, hj⟩, heq⟩)
    · exact Or.inl h
    · exact Or.inr ⟨e, he, hj, heq⟩
  · rintro (h | ⟨e, he, hj, heq⟩)
    · exact Or.inl h
    · exact Or.inr ⟨e, ⟨he, hj⟩, heq⟩

theorem mem_cteStep_of_joined (edges : List (Int × Int)) (cur : List UgsRow)
    (e : Int × Int) (he : e ∈ edges) (hj : edgeJoins cur e = true) :
    ugsRowOfEdge e ∈ cteStep edges cur :=
  (mem_cteStep_iff edges cur _).mpr (Or.inr ⟨e, he, hj, rfl⟩)

theorem subset_cteIter (edges : List (Int × Int)) :
    ∀ (n : Nat) (cur : List UgsRow), cur ⊆ cteIter edges n cur := by
  intro n
  induction n with
  | zero => exact fun cur => List.Subset.refl _
  | succ n ih =>
    exact fun cur => (subset_cteStep edges cur).trans (ih (cteStep edges cur))

theorem nodup_cteIter (edges : List (Int × Int)) :
    ∀ (n : Nat) (cur : List UgsRow), cur.Nodup → (cteIter edges n cur).Nodup := by
  intro n
  induction n with
  | zero => exact fun cur h => h
  | succ n ih =>
    exact fun cur h => ih (cteStep edges cur) (nodup_insertAllAbsent _ _ h)

theorem cteIter_of_fix (edges : List (Int × Int)) :
    ∀ (n : Nat) (cur : List UgsRow), cteStep edges cur = cur →
      cteIter edges n cur = cur := by
  intro n
  induction n with
  | zero => exact fun cur _ => rfl
  | succ n ih =>
    intro cur h
    show cteIter edges n (cteStep edges cur) = cur
    rw [h]
    exact ih cur h

theorem cteIter_reaches_fix (edges : List (Int × Int)) (U : List UgsRow)
    (hU : ∀ e ∈ edges, ugsRowOfEdge e ∈ U) :
    ∀ (n : Nat) (cur : List UgsRow), cur.Nodup → cur ⊆ U →
      U.length + 1 ≤ n + cur.length →
      cteStep edges (cteIter edges n cur) = cteIter edges n cur := by
  intro n
  induction n with
  | zero =>
    intro cur hnd hsub hlen
    exfalso
    have := (List.subperm_of_subset hnd hsub).length_le
    omega
  | succ n ih =>
    intro cur hnd hsub hlen
    rcases insertAllAbsent_eq_or_lt
        ((edges.filter (edgeJoins cur)).map ugsRowOfEdge) cur with hfix | hlt
    · have hfix' : cteStep edges cur = cur := hfix
      have h1 : cteIter edges (n + 1) cur = cur := cteIter_of_fix edges (n + 1) cur hfix'
      rw [h1]
      exact hfix'
    · have hlt' : cur.length < (cteStep edges cur).length := hlt
      have hsub' : cteStep edges cur ⊆ U := by
        intro r hr
        rcases (mem_cteStep_iff edges cur r).mp hr with h | ⟨e, he, _, heq⟩
        · exact hsub h
        · exact heq ▸ hU e he
      have hnd' : (cteStep edges cur).Nodup := nodup_insertAllAbsent _ _ hnd
      have hgoal := ih (cteStep edges cur) hnd' hsub' (by omega)
      exact hgoal

theorem getUsergroupsRecursiveRows_fix (userId : Int)
    (memberRows edges : List (Int × Int)) :
    cteStep edges (getUsergroupsRecursiveRows userId memberRows edges) =
      getUsergroupsRecursiveRows userId memberRows edges := by
  unfold getUsergroupsRecursiveRows
  apply cteIter_reaches_fix edges
    (seedRowsOf userId memberRows ++ edges.map ugsRowOfEdge)
  · intro e he
    exact List.mem_append_right _ (List.mem_map_of_mem _ he)
  · exact nodup_insertAllAbsent _ _ List.nodup_nil
  · exact fun r hr => List.mem_append_left _ hr
  · rw [List.length_append, List.length_map]
    omega

theorem mem_seedRowsOf (userId : Int) (memberRows : List (Int × Int)) (r : UgsRow) :
    r ∈ seedRowsOf userId memberRows ↔
      ∃ m ∈ memberRows, m.2 = userId ∧
        r = { usergroup_id := m.1, child_usergroup_id := none } := by
  unfold seedRowsOf
  rw [mem_insertAllAbsent_iff]
  simp only [List.not_mem_nil, false_or, List.mem_map, List.mem_filter, beq_iff_eq]
  constructor
  · rintro ⟨m, ⟨hm, hu⟩, heq⟩
    exact ⟨m, hm, hu, heq.symm⟩
  · rintro ⟨m, hm, hu, heq⟩
    exact ⟨m, ⟨hm, hu⟩, heq.symm⟩

theorem ugsIds_seedRowsOf (userId : Int) (memberRows : List (Int × Int)) (i : Int) :
    i ∈ ugsIds (seedRowsOf userId memberRows) ↔
      i ∈ directGroupIds userId memberRows := by
  rw [mem_ugsIds_iff]
  unfold directGroupIds
  simp only [List.mem_map, List.mem_filter, beq_iff_eq]
  constructor
  · rintro ⟨r, hr, hcase⟩
    obtain ⟨m, hm, hu, rfl⟩ := (mem_seedRowsOf userId memberRows r).mp hr
    rcases hcase with h | h
    · exact ⟨m, ⟨hm, hu⟩, h⟩
    · cases h
  · rintro ⟨m, ⟨hm, hu⟩, heq⟩
    refine ⟨{ usergroup_id := m.1, child_usergroup_id := none }, ?_, Or.inl heq⟩
    exact (mem_seedRowsOf userId memberRows _).mpr ⟨m, hm, hu, rfl⟩

theorem ugsIds_cteStep_reachable (seeds : List Int) (edges : List (Int × Int))
    (cur : List UgsRow)
    (h : ∀ i ∈ ugsIds cur, ReachableGroup seeds edges i) :
    ∀ i ∈ ugsIds (cteStep edges cur), ReachableGroup seeds edges i := by
  intro i hi
  obtain ⟨r, hr, hcase⟩ := (mem_ugsIds_iff _ i).mp hi
  rcases (mem_cteStep_iff edges cur r).mp hr with hrc | ⟨e, he, hj, heq⟩
  · exact h i ((mem_ugsIds_iff cur i).mpr ⟨r, hrc, hcase⟩)
  · have hp : ReachableGroup seeds edges e.1 :=
      h e.1 ((edgeJoins_eq_true_iff cur e).mp hj)
    rw [← heq] at hcase
    rcases hcase with h1 | h2
    · exact h1 ▸ hp
    · have h2' : e.2 = i := by
        injection h2 with h2'
      have hmem : (e.1, e.2) ∈ edges := by
        simpa using he
      exact h2' ▸ ReachableGroup.nested hmem hp

theorem ugsIds_cteIter_reachable (seeds : List Int) (edges : List (Int × Int)) :
    ∀ (n : Nat) (cur : List UgsRow),
      (∀ i ∈ ugsIds cur, ReachableGroup seeds edges i) →
      ∀ i ∈ ugsIds (cteIter edges n cur), ReachableGroup seeds edges i := by
  intro n
  induction n with
  | zero => exact fun cur h => h
  | succ n ih =>
    exact fun cur h =>
      ih (cteStep edges cur) (ugsIds_cteStep_reachable seeds edges cur h)

theorem reachable_mem_closure (userId : Int) (memberRows edges : List (Int × Int))
    (i : Int)
    (h : ReachableGroup (directGroupIds userId memberRows) edges i) :
    i ∈ ugsIds (getUsergroupsRecursiveRows userId memberRows edges) := by
  induction h with
  | direct hg =>
    rename_i g
    rw [← ugsIds_seedRowsOf userId memberRows g] at hg
    obtain ⟨r, hr, hcase⟩ := (mem_ugsIds_iff _ g).mp hg
    exact (mem_ugsIds_iff _ g).mpr
      ⟨r, subset_cteIter edges _ (seedRowsOf userId memberRows) hr, hcase⟩
  | nested he hp ih =>
    rename_i p c
    have hj : edgeJoins (getUsergroupsRecursiveRows userId memberRows edges) (p, c)
        = true :=
      (edgeJoins_eq_true_iff _ (p, c)).mpr ih
    have hrow := mem_cteStep_of_joined edges
      (getUsergroupsRecursiveRows userId memberRows edges) (p, c) he hj
    rw [getUsergroupsRecursiveRows_fix] at hrow
    exact (mem_ugsIds_iff _ c).mpr ⟨ugsRowOfEdge (p, c), hrow, Or.inr rfl⟩

/-- The closure the recursive query computes contains exactly the groups
reachable from the user's direct memberships. -/
theorem ugsIds_closure_iff (userId : Int) (memberRows edges : List (Int × Int))
    (i : Int) :
    i ∈ ugsIds (getUsergroupsRecursiveRows userId memberRows edges) ↔
      ReachableGroup (directGroupIds userId memberRows) edges i := by
  constructor
  · intro hi
    refine ugsIds_cteIter_reachable (directGroupIds userId memberRows) edges _
      (seedRowsOf userId memberRows) ?_ i hi
    intro j hj
    exact ReachableGroup.direct ((ugsIds_seedRowsOf userId memberRows j).mp hj)
  · exact reachable_mem_closure userId memberRows edges i

/-- Claim C4: for every user id and nesting-edge set — cyclic ones
included — the closure computation terminates: the bounded iteration
reaches a fixpoint of the recursive step (no row is ever re-added, the
result row set is duplicate-free and bounded by seeds plus edges), and
the groups it mentions are exactly those reachable from the user's
direct memberships. -/
theorem closure_terminates_and_reaches (userId : Int)
    (memberRows edges : List (Int × Int)) :
    cteStep edges (getUsergroupsRecursiveRows userId memberRows edges) =
        getUsergroupsRecursiveRows userId memberRows edges ∧
    (getUsergroupsRecursiveRows userId memberRows edges).Nodup ∧
    (∀ r ∈ getUsergroupsRecursiveRows userId memberRows edges,
      r ∈ seedRowsOf userId memberRows ∨ ∃ e ∈ edges, ugsRowOfEdge e = r) ∧
    ∀ i : Int, i ∈ ugsIds (getUsergroupsRecursiveRows userId memberRows edges) ↔
      ReachableGroup (directGroupIds userId memberRows) edges i := by
  refine ⟨getUsergroupsRecursiveRows_fix userId memberRows edges,
    nodup_cteIter edges _ _ (nodup_insertAllAbsent _ _ List.nodup_nil), ?_,
    ugsIds_closure_iff userId memberRows edges⟩
  have hbound : ∀ (n : Nat) (cur : List UgsRow) (r : UgsRow),
      r ∈ cteIter edges n cur → r ∈ cur ∨ ∃ e ∈ edges, ugsRowOfEdge e = r := by
    intro n
    induction n with
    | zero => exact fun cur r hr => Or.inl hr
    | succ n ih =>
      intro cur r hr
      rcases ih (cteStep edges cur) r hr with h | h
      · rcases (mem_cteStep_iff edges cur r).mp h with h' | ⟨e, he, _, heq⟩
        · exact Or.inl h'
        · exact Or.inr ⟨e, he, heq⟩
      · exact Or.inr h
  exact fun r hr => hbound _ _ r hr

/-- On the spec's two-node cycle the computed closure is exactly the
cycle's node set (a concrete evaluation, independent of the claim
theorems). -/
theorem closure_cycle_eval :
    (10 : Int) ∈ ugsIds (getUsergroupsRecursiveRows 9 [(10, 9)] [(10, 11), (11, 10)]) ∧
    (11 : Int) ∈ ugsIds (getUsergroupsRecursiveRows 9 [(10, 9)] [(10, 11), (11, 10)]) ∧
    ∀ i ∈ ugsIds (getUsergroupsRecursiveRows 9 [(10, 9)] [(10, 11), (11, 10)]),
      i = 10 ∨ i = 11 := by
  decide

theorem reachable_mono (seeds : List Int) (edges edges' : List (Int × Int))
    (hsub : edges ⊆ edges') (i : Int)
    (h : ReachableGroup seeds edges i) : ReachableGroup seeds edges' i := by
  induction h with
  | direct hg => exact ReachableGroup.direct hg
  | nested he _ ih => exact ReachableGroup.nested (hsub he) ih

/-- Claim C5: the computed closure is monotone — adding one nesting edge
to the store can only grow, never shrink, the set of groups in the
closure. -/
theorem closure_monotone_addEdge (userId : Int)
    (memberRows edges : List (Int × Int)) (E : Int × Int) (i : Int)
    (h : i ∈ ugsIds (getUsergroupsRecursiveRows userId memberRows edges)) :
    i ∈ ugsIds (getUsergroupsRecursiveRows userId memberRows (edges ++ [E])) := by
  rw [ugsIds_closure_iff] at h ⊢
  exact reachable_mono _ edges (edges ++ [E])
    (fun e he => List.mem_append_left _ he) i h

/-- Witness for C5 at a concrete store: group 2 is in the closure both
before and after adding the edge (2, 3). -/
theorem closure_monotone_addEdge_witness :
    (2 : Int) ∈ ugsIds (getUsergroupsRecursiveRows 7 [(1, 7)] [(1, 2)]) ∧
    (2 : Int) ∈ ugsIds (getUsergroupsRecursiveRows 7 [(1, 7)] ([(1, 2)] ++ [(2, 3)])) :=
  ⟨by decide, closure_monotone_addEdge 7 [(1, 7)] [(1, 2)] (2, 3) 2 (by decide)⟩

/-! ## Claim C1: the decision rule -/

theorem subset_uaIter (w : AuthzWorld) :
    ∀ (n : Nat) (cur : List (String × String)), cur ⊆ uaIter w n cur := by
  intro n
  induction n with
  | zero => exact fun cur => List.Subset.refl _
  | succ n ih =>
    exact fun cur =>
      (subset_insertAllAbsent (uaDerived w cur) cur).trans (ih (uaStep w cur))

theorem seed_subset_uaFacts (w : AuthzWorld) : uaSeedPairs w ⊆ uaFacts w :=
  subset_uaIter w (uaFuel w) (uaSeedPairs w)

theorem self_pair_mem_uaFacts (w : AuthzWorld) (u : String)
    (hu : u ∈ w.userFacts) : (u, u) ∈ uaFacts w :=
  seed_subset_uaFacts w
    (List.mem_append_left _ (List.mem_map_of_mem (fun v => (v, v)) hu))

theorem self_pair_mem_raPairs (w : AuthzWorld) (m : String)
    (hm : m ∈ repoDerived w) : (m, m) ∈ raPairs w :=
  List.mem_append_left _ (List.mem_map_of_mem (fun v => (v, v)) hm)

theorem buildRoleFacts_source {l : List AssignedRole} {rfs : List RoleFact}
    (h : buildRoleFacts l = BuildOutcome.ok rfs) :
    ∀ rf ∈ rfs, ∃ a ∈ l, buildRoleFact a = BuildOutcome.ok rf := by
  induction l generalizing rfs with
  | nil =>
    simp only [buildRoleFacts, BuildOutcome.ok.injEq] at h
    subst h
    simp
  | cons a rest ih =>
    cases ha : buildRoleFact a with
    | fatal m => simp [buildRoleFacts, ha] at h
    | ok rf0 =>
      cases hrest : buildRoleFacts rest with
      | fatal m => simp [buildRoleFacts, ha, hrest] at h
      | ok rfs0 =>
        simp only [buildRoleFacts, ha, hrest, BuildOutcome.ok.injEq] at h
        intro rf hrf
        rw [← h] at hrf
        rcases List.mem_cons.mp hrf with rfl | hmem
        · exact ⟨a, List.mem_cons_self a rest, ha⟩
        · obtain ⟨a', ha', hfa⟩ := ih hrest rf hmem
          exact ⟨a', List.mem_cons_of_mem a ha', hfa⟩

theorem buildRoleFacts_image {l : List AssignedRole} {rfs : List RoleFact}
    (h : buildRoleFacts l = BuildOutcome.ok rfs) :
    ∀ a ∈ l, ∃ rf ∈ rfs, buildRoleFact a = BuildOutcome.ok rf := by
  induction l generalizing rfs with
  | nil => simp
  | cons a rest ih =>
    cases ha : buildRoleFact a with
    | fatal m => simp [buildRoleFacts, ha] at h
    | ok rf0 =>
      cases hrest : buildRoleFacts rest with
      | fatal m => simp [buildRoleFacts, ha, hrest] at h
      | ok rfs0 =>
        simp only [buildRoleFacts, ha, hrest, BuildOutcome.ok.injEq] at h
        intro a' ha'
        rcases List.mem_cons.mp ha' with rfl | hmem
        · exact ⟨rf0, by rw [← h]; exact List.mem_cons_self rf0 rfs0, ha⟩
        · obtain ⟨rf, hrf, hfa⟩ := ih hrest a' hmem
          exact ⟨rf, by rw [← h]; exact List.mem_cons_of_mem rf0 hrf, hfa⟩

theorem buildRoleFact_role_char {a : AssignedRole} {rf : RoleFact}
    (h : buildRoleFact a = BuildOutcome.ok rf) :
    (a.RepoRole = RepoRoleType.OwnerRole ∧ rf.Role = namespaceRole ownerRoleStr) ∨
    (a.RepoRole = RepoRoleType.ReaderRole ∧ rf.Role = namespaceRole readerRoleStr) ∨
    (a.RepoRole = RepoRoleType.WriterRole ∧ rf.Role = namespaceRole writerRoleStr) := by
  obtain ⟨uog, uid, rog, rid, rr⟩ := a
  cases uog <;> cases rog <;> cases rr <;>
    simp_all [buildRoleFact, roleFactUserPart, roleFactRepoPart, roleFactRolePart] <;>
    rw [← h]

theorem allowDecision_eq_true_iff (w : AuthzWorld) :
    allowDecision w = true ↔
      ∃ u ∈ w.userFacts, ∃ o ∈ w.operations,
        ∃ rp ∈ w.repoRoleActionFacts,
          reqRoleHolds w rp.1 o.1 = true ∧
          (∃ mg ∈ uaFacts w, mg.1 = u) ∧
          (∃ mg ∈ raPairs w, mg.1 = o.2) ∧
          ∃ rf ∈ w.roleFacts, rf.Role = rp.1 := by
  unfold allowDecision
  simp only [List.any_eq_true, Bool.and_eq_true, beq_iff_eq]
  constructor
  · rintro ⟨u, hu, o, ho, rp, hrp, ⟨⟨⟨hreq, hua⟩, hra⟩, hrole⟩⟩
    exact ⟨u, hu, o, ho, rp, hrp, hreq, hua, hra, hrole⟩
  · rintro ⟨u, hu, o, ho, rp, hrp, hreq, hua, hra, hrole⟩
    exact ⟨u, hu, o, ho, rp, hrp, ⟨⟨⟨hreq, hua⟩, hra⟩, hrole⟩⟩

theorem allowDecision_world_iff (tokenUserId : Int) (req : RequestDetails)
    (op : Action) (rfs : List RoleFact) :
    allowDecision (CheckAuthzWorld tokenUserId req op rfs) = true ↔
      ∃ c ∈ repoRoleActionsConfig,
        namespaceAction (actionToStr op) ∈ c.RoleAllowedActions.map namespaceAction ∧
        ∃ rf ∈ rfs, rf.Role = namespaceRole c.RoleName := by
  rw [allowDecision_eq_true_iff]
  constructor
  · rintro ⟨u, hu, o, ho, rp, hrp, hreq, _hua, _hra, rf, hrf, hrole⟩
    simp only [CheckAuthzWorld, List.mem_singleton] at hu ho
    subst hu
    subst ho
    simp only [CheckAuthzWorld] at hrp hrf
    obtain ⟨c, hc, rfl⟩ := List.mem_map.mp hrp
    refine ⟨c, hc, ?_, rf, hrf, hrole⟩
    unfold reqRoleHolds at hreq
    rw [Bool.and_eq_true] at hreq
    obtain ⟨_hop, htab⟩ := hreq
    rw [List.any_eq_true] at htab
    obtain ⟨rp', hrp', hcond⟩ := htab
    simp only [CheckAuthzWorld] at hrp'
    obtain ⟨c', hc', rfl⟩ := List.mem_map.mp hrp'
    rw [Bool.and_eq_true, beq_iff_eq] at hcond
    obtain ⟨hname, hcontains⟩ := hcond
    simp only [repoRoleActionsConfig, List.mem_cons, List.mem_singleton,
      List.not_mem_nil, or_false] at hc hc'
    rcases hc with rfl | rfl | rfl <;> rcases hc' with rfl | rfl | rfl <;>
      first
        | exact absurd hname (by decide)
        | exact List.mem_of_elem_eq_true hcontains
  · rintro ⟨c, hc, hact, rf, hrf, hrole⟩
    refine ⟨namespaceUser tokenUserId, ?_,
      (namespaceAction (actionToStr op), namespaceRepo req.RepoId), ?_,
      (namespaceRole c.RoleName, c.RoleAllowedActions.map namespaceAction), ?_,
      ?_, ?_, ?_, rf, hrf, hrole⟩
    · simp [CheckAuthzWorld]
    · simp [CheckAuthzWorld]
    · simp only [CheckAuthzWorld]
      exact List.mem_map_of_mem _ hc
    · unfold reqRoleHolds
      rw [Bool.and_eq_true]
      constructor
      · rw [List.any_eq_true]
        exact ⟨(namespaceAction (actionToStr op), namespaceRepo req.RepoId),
          by simp [CheckAuthzWorld], by simp⟩
      · rw [List.any_eq_true]
        refine ⟨(namespaceRole c.RoleName, c.RoleAllowedActions.map namespaceAction),
          ?_, ?_⟩
        · simp only [CheckAuthzWorld]
          exact List.mem_map_of_mem _ hc
        · rw [Bool.and_eq_true]
          exact ⟨beq_self_eq_true _, List.elem_eq_true_of_mem hact⟩
    · exact ⟨(namespaceUser tokenUserId, namespaceUser tokenUserId),
        self_pair_mem_uaFacts _ _ (by simp [CheckAuthzWorld]), rfl⟩
    · exact ⟨(namespaceRepo req.RepoId, namespaceRepo req.RepoId),
        self_pair_mem_raPairs _ _ (by simp [CheckAuthzWorld, repoDerived]), rfl⟩

/-- Claim C1: the verdict is allow exactly when some relevant role
assignment's role permits the requested action; with zero relevant
assignments the existential is empty, so the verdict is deny for every
action. -/
theorem CheckAuthz_allow_iff (tokenUserId : Int) (req : RequestDetails)
    (op : Action) (rfs : List RoleFact)
    (hbuild : buildRoleFacts req.AssignedRoles = BuildOutcome.ok rfs) :
    CheckAuthz tokenUserId req op = BuildOutcome.ok (true, none) ↔
      ∃ a ∈ req.AssignedRoles, actionToStr op ∈ roleActionsForType a.RepoRole := by
  have hmodel : CheckAuthz tokenUserId req op = BuildOutcome.ok (true, none) ↔
      allowDecision (CheckAuthzWorld tokenUserId req op rfs) = true := by
    cases hA : allowDecision (CheckAuthzWorld tokenUserId req op rfs) with
    | true => simp [CheckAuthz, hbuild, authorizeResultOf, hA]
    | false => simp [CheckAuthz, hbuild, authorizeResultOf, hA]
  rw [hmodel, allowDecision_world_iff]
  cases op
  all_goals
    constructor
    · rintro ⟨c, hc, hact, rf, hrf, hrole⟩
      obtain ⟨a, ha, hfact⟩ := buildRoleFacts_source hbuild rf hrf
      simp only [repoRoleActionsConfig, List.mem_cons, List.mem_singleton,
        List.not_mem_nil, or_false] at hc
      rcases hc with rfl | rfl | rfl <;>
        rcases buildRoleFact_role_char hfact with ⟨hR, hN⟩ | ⟨hR, hN⟩ | ⟨hR, hN⟩ <;>
          first
            | exact absurd (hrole.symm.trans hN) (by decide)
            | exact ⟨a, ha, by rw [hR]; revert hact; decide⟩
    · rintro ⟨a, ha, hact⟩
      obtain ⟨rf, hrf, hfact⟩ := buildRoleFacts_image hbuild a ha
      rcases buildRoleFact_role_char hfact with ⟨hR, hN⟩ | ⟨hR, hN⟩ | ⟨hR, hN⟩
      · exact ⟨{ RoleName := ownerRoleStr
                 RoleAllowedActions := [membershipStr, writeStr, readStr] },
          by decide, by rw [hR] at hact; revert hact; decide, rf, hrf, by rw [hN]⟩
      · exact ⟨{ RoleName := readerRoleStr, RoleAllowedActions := [readStr] },
          by decide, by rw [hR] at hact; revert hact; decide, rf, hrf, by rw [hN]⟩
      · exact ⟨{ RoleName := writerRoleStr, RoleAllowedActions := [writeStr, readStr] },
          by decide, by rw [hR] at hact; revert hact; decide, rf, hrf, by rw [hN]⟩

/-- Witness for C1: the spec's "Noah" scenario — a direct Owner
assignment on the repo, requesting write. -/
theorem CheckAuthz_allow_iff_witness :
    buildRoleFacts
        [{ UserOrGroup := UserOrGroupRel.UserUGR
           UserOrGroupID := 2
           RepoOrGroup := RepoOrGroupRel.RepoUGR
           RepoOrGroupID := 3
           RepoRole := RepoRoleType.OwnerRole }] =
      BuildOutcome.ok
        [{ Role := namespaceRole ownerRoleStr
           UserNamespaced := namespaceUser 2
           RepoNamespaced := namespaceRepo 3 }] ∧
    (CheckAuthz 2
        { UserId := 2
          Username := "Noah"
          UsergroupRelationships := { UserInGroups := [], UserGroupInGroups := [] }
          RepoId := 3
          RepoName := "Charlie"
          RepogroupRels := []
          AssignedRoles :=
            [{ UserOrGroup := UserOrGroupRel.UserUGR
               UserOrGroupID := 2
               RepoOrGroup := RepoOrGroupRel.RepoUGR
               RepoOrGroupID := 3
               RepoRole := RepoRoleType.OwnerRole }] }
        Action.Write = BuildOutcome.ok (true, none) ↔
      ∃ a ∈ [{ UserOrGroup := UserOrGroupRel.UserUGR
               UserOrGroupID := 2
               RepoOrGroup := RepoOrGroupRel.RepoUGR
               RepoOrGroupID := 3
               RepoRole := RepoRoleType.OwnerRole : AssignedRole }],
        actionToStr Action.Write ∈ roleActionsForType a.RepoRole) :=
  ⟨by decide,
    CheckAuthz_allow_iff 2
      { UserId := 2
        Username := "Noah"
        UsergroupRelationships := { UserInGroups := [], UserGroupInGroups := [] }
        RepoId := 3
        RepoName := "Charlie"
        RepogroupRels := []
        AssignedRoles :=
          [{ UserOrGroup := UserOrGroupRel.UserUGR
             UserOrGroupID := 2
             RepoOrGroup := RepoOrGroupRel.RepoUGR
             RepoOrGroupID := 3
             RepoRole := RepoRoleType.OwnerRole }] }
      Action.Write
      [{ Role := namespaceRole ownerRoleStr
         UserNamespaced := namespaceUser 2
         RepoNamespaced := namespaceRepo 3 }]
      (by decide)⟩

end BiscuitForge
